import Mathlib

/-!
Verification of the Twitch-Sound-Alert repository core: the reconnect/backoff
state machine, the line framer, the message parser, the trigger matcher and
the stop/run-loop behavior.  The repository contains two parallel
implementations of the same pipeline: the CLI bot (`twitch_sound_alert.py`,
class `TwitchBot`) and the reusable listener (`release/twitch_listener.py`,
class `TwitchListener`).  Both are embedded below where they differ.

Strings are modeled as `List Char`; bytes as `Nat`.  Python `str.lower` is
modeled as ASCII lowercasing (`Char.toLower`), which agrees with the source
on all inputs appearing in the statements below.
-/

namespace TwitchAlert

/-! ## The CLI bot's run/connect loop (`twitch_sound_alert.py`)

`TwitchBot.run` is a `while self.running` loop.  When not connected it calls
`connect()`; on success `connect` sets `connected = True` and
`current_reconnect_delay = reconnect_delay` (the configured minimum); on
failure `run` sleeps `current_reconnect_delay` seconds and doubles the delay
capped at `max_reconnect_delay`.  When connected it performs a `recv`:
a nonempty chunk is processed line by line, an empty chunk or any socket
exception marks the connection lost (`connected = False`) without touching
the delay, and `socket.timeout` is ignored (`continue`).  `stop()` clears
`running` and disconnects. -/

structure BotState where
  running : Bool
  connected : Bool
  currentDelay : Nat
  minDelay : Nat
  maxDelay : Nat
  deriving Repr, DecidableEq

/-- Outcome of one `recv` call in `TwitchBot.run` (lines 240-259):
a decoded chunk (possibly empty = peer closed), a `socket.timeout`,
a socket/OS error, or an exception escaping message handling. -/
inductive RecvRes where
  | chunk (s : List Char)
  | timeout
  | sockErr
  | procFault
  deriving Repr, DecidableEq

/-- One connect attempt as `TwitchBot.run` performs it when `connected` is
false: on success (`connect()` returned `True`, lines 164-167) the state
becomes connected and the delay resets to the minimum; on failure (lines
230-238) the loop sleeps and the delay doubles, capped at the maximum. -/
def connectStep (b : BotState) (ok : Bool) : BotState :=
  if ok then
    { b with connected := true, currentDelay := b.minDelay }
  else
    { b with currentDelay := min (b.currentDelay * 2) b.maxDelay }

/-- One receive step of `TwitchBot.run` while connected (lines 240-259).
An empty chunk ("connection lost") and any exception clear `connected`;
a timeout is skipped (`continue`); none of these touch the delay. -/
def recvStep (b : BotState) (r : RecvRes) : BotState :=
  match r with
  | .chunk s => if s.isEmpty then { b with connected := false } else b
  | .timeout => b
  | .sockErr => { b with connected := false }
  | .procFault => { b with connected := false }

/-- `TwitchBot.stop` (lines 263-266): clear `running`, disconnect. -/
def stopStep (b : BotState) : BotState :=
  { b with running := false, connected := false }

/-- Iterated failed connect attempts, for the backoff scenario. -/
def connectSteps (b : BotState) : List Bool → BotState
  | [] => b
  | ok :: rest => connectSteps (connectStep b ok) rest

/-! ## The trigger matcher (`TwitchBot.handle_message`, lines 214-220)

`for trigger, sound_file in triggers.items(): if trigger.lower() in
chat_message.lower(): play_sound(sound_file); break` — dict iteration is
insertion order, `in` is substring containment, `break` dispatches at most
one action. -/

def lowerStr (l : List Char) : List Char := l.map Char.toLower

/-- Python substring containment `needle in hay`: `needle` occurs as a
contiguous run inside `hay` (the empty string is contained in everything). -/
def containsSub (needle hay : List Char) : Bool :=
  match hay with
  | [] => needle.isEmpty
  | _ :: rest => List.isPrefixOf needle hay || containsSub needle rest

/-- First-match scan of the trigger table in insertion order; returns the
action (sound file) of the first entry whose lowercased phrase is a
substring of the lowercased text. -/
def matchTriggers (text : List Char) : List (List Char × List Char) → Option (List Char)
  | [] => none
  | (trig, act) :: rest =>
      if containsSub (lowerStr trig) (lowerStr text) then some act
      else matchTriggers text rest

/-! ## The listener's receive loop (`release/twitch_listener.py`, lines 134-185)

`TwitchListener.run` keeps a local `backoff`.  A nonempty `recv` chunk is
processed and then `backoff = 1`; an empty chunk means "connection closed by
server" and reconnects immediately without touching `backoff`;
`socket.timeout` and `OSError` are handled together: sleep `backoff`, double
it capped at 60, and reconnect; any other exception is handled the same way.
`connGen` counts connections: a reconnect replaces the socket. -/

structure ListenerState where
  running : Bool
  backoff : Nat
  connGen : Nat
  deriving Repr, DecidableEq

/-- One receive step of `TwitchListener.run`. -/
def listenerRecvStep (s : ListenerState) (r : RecvRes) : ListenerState :=
  match r with
  | .chunk cs =>
      if cs.isEmpty then { s with connGen := s.connGen + 1 }
      else { s with backoff := 1 }
  | .timeout => { s with backoff := min (s.backoff * 2) 60, connGen := s.connGen + 1 }
  | .sockErr => { s with backoff := min (s.backoff * 2) 60, connGen := s.connGen + 1 }
  | .procFault => { s with backoff := min (s.backoff * 2) 60, connGen := s.connGen + 1 }

/-! ## Message parsing (`release/twitch_listener.py`)

`PRIVMSG_RE = re.compile(r"^:([^!]+)!.* PRIVMSG #[^\s]+ :(.+)$")` (line 26),
applied with `re.match`.  The embedding below reproduces Python's
backtracking semantics for this fixed pattern on lines from the framer:

* `([^!]+)` is forced: the group is exactly the (nonempty) run of
  characters between the leading `:` and the first `!` — shortening it can
  never help, because the following literal `!` must then match a
  non-`!` character.
* the greedy `.*` means the engine commits to the rightmost position at
  which ` PRIVMSG #[^\s]+ :(.+)` succeeds,
* inside that tail, `[^\s]+` takes the maximal run of non-whitespace after
  `#` — backtracking it is useless because the next pattern character is a
  space,
* `.` and the character classes never match a newline, and `$` also
  matches just before a newline that ends the string (`pyDollarTrim`). -/

def pySpace (c : Char) : Bool :=
  c = ' ' || c = '\t' || c = '\n' || c = '\r' || c = '\x0B' || c = '\x0C'

/-- Strip an exact literal prefix, returning the remainder. -/
def dropExact : List Char → List Char → Option (List Char)
  | [], l => some l
  | _ :: _, [] => none
  | p :: ps, c :: cs => if c = p then dropExact ps cs else none

/-- Try the pattern tail ` PRIVMSG #[^\s]+ :(.+)` at this position of the
line, returning the text group on success. -/
def tryPrivmsgAt (l : List Char) : Option (List Char) :=
  match dropExact (" PRIVMSG #".toList) l with
  | none => none
  | some rest =>
      let chan := rest.takeWhile (fun c => !(pySpace c))
      if chan.isEmpty then none
      else
        match dropExact (" :".toList) (rest.drop chan.length) with
        | none => none
        | some msg => if msg.isEmpty then none else some msg

/-- Greedy `.*`: the engine prefers the rightmost position at which the
rest of the pattern matches, so search the suffixes right to left. -/
def searchLast : List Char → Option (List Char)
  | [] => none
  | c :: rest =>
      match searchLast rest with
      | some r => some r
      | none => tryPrivmsgAt (c :: rest)

/-- `^:([^!]+)!`: the sender group is the nonempty run between the leading
colon and the first exclamation mark; returns it with the rest of the line
after the `!`. -/
def senderSplit (l : List Char) : Option (List Char × List Char) :=
  match l with
  | [] => none
  | c :: rest =>
      if c = ':' then
        if (rest.takeWhile (fun x => x != '!')).isEmpty then none
        else
          match rest.drop (rest.takeWhile (fun x => x != '!')).length with
          | '!' :: afterBang => some (rest.takeWhile (fun x => x != '!'), afterBang)
          | _ => none
      else none

/-- Python `$` in non-multiline mode also matches just before a newline
that is the last character of the string. -/
def pyDollarTrim (l : List Char) : List Char :=
  if l.getLast? = some '\n' then l.dropLast else l

/-- Embedding of `PRIVMSG_RE.match line` returning `(sender, text)` groups. -/
def privmsgReMatch (l0 : List Char) : Option (List Char × List Char) :=
  if (pyDollarTrim l0).contains '\n' then none
  else
    match senderSplit (pyDollarTrim l0) with
    | none => none
    | some sa =>
        match searchLast sa.2 with
        | none => none
        | some msg => some (sa.1, msg)

inductive Msg where
  | ping
  | chat (sender text : List Char)
  | other
  deriving Repr, DecidableEq

/-- Line classification as in `TwitchListener.run` lines 151-168: a line
starting with the literal `PING` is a keep-alive; otherwise a `PRIVMSG_RE`
match makes it a chat message; everything else — including malformed
chat-like lines — falls through with no effect (other). -/
def classifyLine (l : List Char) : Msg :=
  if List.isPrefixOf ("PING".toList) l then .ping
  else
    match privmsgReMatch l with
    | some st => .chat st.1 st.2
    | none => .other

/-- The listener's keep-alive reply line (`twitch_listener.py` line 153):
a fixed string, independent of the received line. -/
def listenerPongReply : List Char := "PONG :tmi.twitch.tv".toList

/-- The CLI bot's keep-alive reply (`twitch_sound_alert.py` line 200):
`message.replace("PING", "PONG")` — each occurrence of `PING` in the
received line is replaced by `PONG`, left to right, non-overlapping. -/
def pingToPong : List Char → List Char
  | 'P' :: 'I' :: 'N' :: 'G' :: rest => 'P' :: 'O' :: 'N' :: 'G' :: pingToPong rest
  | c :: rest => c :: pingToPong rest
  | [] => []

/-! ## The line framer (`release/twitch_listener.py` lines 145-149)

`buffer += data.decode("utf-8", errors="ignore")` followed by
`while "\r\n" in buffer: line, buffer = buffer.split("\r\n", 1)` — repeated
leftmost split at the terminator.  `framer` performs that loop in one scan
of the buffer, returning the complete lines and the leftover buffer. -/

def framer : List Char → List (List Char) × List Char
  | [] => ([], [])
  | [c] => ([], [c])
  | c1 :: c2 :: rest =>
      if c1 = '\r' ∧ c2 = '\n' then
        ([] :: (framer rest).1, (framer rest).2)
      else
        match framer (c2 :: rest) with
        | ([], r) => ([], c1 :: r)
        | (l :: ls, r) => ((c1 :: l) :: ls, r)

/-- The guard `"\r\n" in buffer` of the splitting loop. -/
def hasCRLF : List Char → Bool
  | [] => false
  | [_] => false
  | c1 :: c2 :: rest => (c1 = '\r' && c2 = '\n') || hasCRLF (c2 :: rest)

/-- Feeding a sequence of already-decoded text chunks one by one: each feed
appends its chunk to the leftover buffer and extracts the complete lines. -/
def feedAll (buf : List Char) : List (List Char) → List (List Char) × List Char
  | [] => ([], buf)
  | c :: cs =>
      ((framer (buf ++ c)).1 ++ (feedAll (framer (buf ++ c)).2 cs).1,
        (feedAll (framer (buf ++ c)).2 cs).2)

/-! ## Byte decoding (`.decode("utf-8", errors="ignore")`)

Both variants decode each received chunk with `errors="ignore"`, which
drops malformed byte sequences (consuming, per error, the maximal subpart
of a valid sequence, as CPython does); `errors="replace"` — the behavior
the specification describes — substitutes U+FFFD for each malformed
sequence instead.  `decodeOne` decodes a single UTF-8 sequence starting at
lead byte `b`: `none` signals an encoding error whose offending bytes have
been consumed from the stream. -/

def contByte (b : Nat) : Bool := 0x80 ≤ b && b ≤ 0xBF

def cont3First (b b2 : Nat) : Bool :=
  if b = 0xE0 then 0xA0 ≤ b2 && b2 ≤ 0xBF
  else if b = 0xED then 0x80 ≤ b2 && b2 ≤ 0x9F
  else contByte b2

def cont4First (b b2 : Nat) : Bool :=
  if b = 0xF0 then 0x90 ≤ b2 && b2 ≤ 0xBF
  else if b = 0xF4 then 0x80 ≤ b2 && b2 ≤ 0x8F
  else contByte b2

/-- Decoded code point of a 2-byte sequence. -/
def dec2 (b b2 : Nat) : Char := Char.ofNat ((b - 0xC0) * 0x40 + (b2 - 0x80))

/-- Decoded code point of a 3-byte sequence. -/
def dec3 (b b2 b3 : Nat) : Char :=
  Char.ofNat ((b - 0xE0) * 0x1000 + (b2 - 0x80) * 0x40 + (b3 - 0x80))

/-- Decoded code point of a 4-byte sequence. -/
def dec4 (b b2 b3 b4 : Nat) : Char :=
  Char.ofNat ((b - 0xF0) * 0x40000 + (b2 - 0x80) * 0x1000 +
    (b3 - 0x80) * 0x40 + (b4 - 0x80))

/-- Incremental UTF-8 decoding with error handler output `err`: a decoded
sequence contributes its code point; each malformed sequence contributes
`err` and is skipped, consuming its maximal valid subpart, as CPython
does.  `err = []` is `errors="ignore"`; `err = [U+FFFD]` is
`errors="replace"`.  The list is matched four bytes deep so that every
recursive call is a visible structural subterm. -/
def utf8DecodeWith (err : List Char) : List Nat → List Char
  | [] => []
  | [b] =>
      if b < 0x80 then [Char.ofNat b] else err
  | [b, b2] =>
      if b < 0x80 then Char.ofNat b :: utf8DecodeWith err [b2]
      else if b < 0xC2 then err ++ utf8DecodeWith err [b2]
      else if b < 0xE0 then
        (if contByte b2 then [dec2 b b2] else err ++ utf8DecodeWith err [b2])
      else if b < 0xF0 then
        (if cont3First b b2 then err else err ++ utf8DecodeWith err [b2])
      else if b < 0xF5 then
        (if cont4First b b2 then err else err ++ utf8DecodeWith err [b2])
      else err ++ utf8DecodeWith err [b2]
  | [b, b2, b3] =>
      if b < 0x80 then Char.ofNat b :: utf8DecodeWith err [b2, b3]
      else if b < 0xC2 then err ++ utf8DecodeWith err [b2, b3]
      else if b < 0xE0 then
        (if contByte b2 then dec2 b b2 :: utf8DecodeWith err [b3]
         else err ++ utf8DecodeWith err [b2, b3])
      else if b < 0xF0 then
        (if cont3First b b2 then
           (if contByte b3 then [dec3 b b2 b3]
            else err ++ utf8DecodeWith err [b3])
         else err ++ utf8DecodeWith err [b2, b3])
      else if b < 0xF5 then
        (if cont4First b b2 then
           (if contByte b3 then err
            else err ++ utf8DecodeWith err [b3])
         else err ++ utf8DecodeWith err [b2, b3])
      else err ++ utf8DecodeWith err [b2, b3]
  | b :: b2 :: b3 :: b4 :: rest =>
      if b < 0x80 then Char.ofNat b :: utf8DecodeWith err (b2 :: b3 :: b4 :: rest)
      else if b < 0xC2 then err ++ utf8DecodeWith err (b2 :: b3 :: b4 :: rest)
      else if b < 0xE0 then
        (if contByte b2 then dec2 b b2 :: utf8DecodeWith err (b3 :: b4 :: rest)
         else err ++ utf8DecodeWith err (b2 :: b3 :: b4 :: rest))
      else if b < 0xF0 then
        (if cont3First b b2 then
           (if contByte b3 then dec3 b b2 b3 :: utf8DecodeWith err (b4 :: rest)
            else err ++ utf8DecodeWith err (b3 :: b4 :: rest))
         else err ++ utf8DecodeWith err (b2 :: b3 :: b4 :: rest))
      else if b < 0xF5 then
        (if cont4First b b2 then
           (if contByte b3 then
              (if contByte b4 then dec4 b b2 b3 b4 :: utf8DecodeWith err rest
               else err ++ utf8DecodeWith err (b4 :: rest))
            else err ++ utf8DecodeWith err (b3 :: b4 :: rest))
         else err ++ utf8DecodeWith err (b2 :: b3 :: b4 :: rest))
      else err ++ utf8DecodeWith err (b2 :: b3 :: b4 :: rest)

/-- `bytes.decode("utf-8", errors="ignore")`: malformed sequences
contribute nothing to the output; decoding never fails. -/
def utf8DecodeIgnore (l : List Nat) : List Char := utf8DecodeWith [] l

/-- `bytes.decode("utf-8", errors="replace")` — what the specification
describes: each malformed sequence becomes U+FFFD in the output. -/
def utf8DecodeReplace (l : List Nat) : List Char :=
  utf8DecodeWith [Char.ofNat 0xFFFD] l

/-- Feeding raw byte chunks as the listener does: each chunk is decoded on
its own with `errors="ignore"` and the resulting text is appended to the
buffer (`buffer += data.decode("utf-8", errors="ignore")`). -/
def byteFeedAll (buf : List Char) : List (List Nat) → List (List Char) × List Char
  | [] => ([], buf)
  | c :: cs =>
      ((framer (buf ++ utf8DecodeIgnore c)).1 ++
          (byteFeedAll (framer (buf ++ utf8DecodeIgnore c)).2 cs).1,
        (byteFeedAll (framer (buf ++ utf8DecodeIgnore c)).2 cs).2)

/-! ## The listener's connect loop and `stop()` (`twitch_listener.py`
lines 99-117 and 201-204)

`connect` is `while self.running:` try-connect; on failure
`time.sleep(self.backoff)` then `self.backoff = min(self.backoff * 2, 60)`.
The sleep is an atomic call that does not observe `self.running`; the flag
is read only at the loop top.  `stop()` sets `self.running = False` and
then `thread.join(timeout=5)`, so it returns after a bounded wait
regardless of the loop's progress.  In the machine below, `sleeping` is
the program counter inside an in-progress sleep, `slept` logs completed
sleeps, and `result` is set when `connect` returns (`some true` = socket,
`some false` = `None`). -/

structure ConnSt where
  running : Bool
  backoff : Nat
  sleeping : Option Nat
  slept : List Nat
  result : Option Bool
  deriving Repr, DecidableEq

inductive ConnEv where
  | check (ok : Bool)
  | sleepDone
  | setStop
  deriving Repr, DecidableEq

/-- Small-step transition of the connect loop interleaved with `stop()`:
`check ok` is the loop-top flag test followed by a connect attempt with
outcome `ok`; `sleepDone` completes an in-progress backoff sleep (recording
it in `slept` and doubling the backoff, lines 115-116); `setStop` is the
external `self.running = False` write from `stop()`. -/
def connLoopStep (s : ConnSt) (e : ConnEv) : ConnSt :=
  match e with
  | .setStop => { s with running := false }
  | .sleepDone =>
      match s.sleeping with
      | some d =>
          { s with sleeping := none, slept := s.slept ++ [d],
                   backoff := min (s.backoff * 2) 60 }
      | none => s
  | .check ok =>
      match s.result, s.sleeping with
      | none, none =>
          if s.running then
            if ok then { s with result := some true }
            else { s with sleeping := some s.backoff }
          else { s with result := some false }
      | _, _ => s

/-! ## Shared helper lemmas -/

theorem containsSub_nil (hay : List Char) : containsSub [] hay = true := by
  cases hay <;> simp [containsSub, List.isPrefixOf]

theorem senderSplit_inversion (l s a : List Char)
    (h : senderSplit l = some (s, a)) :
    l.head? = some ':' ∧ s = List.takeWhile (fun c => c != '!') l.tail := by
  cases l with
  | nil => cases h
  | cons c rest =>
      simp only [senderSplit] at h
      split at h
      · rename_i hc
        split at h
        · cases h
        · split at h
          · obtain ⟨hs, _⟩ := Prod.mk.injEq .. |>.mp (Option.some.inj h)
            exact ⟨by rw [hc]; rfl, by simpa using hs.symm⟩
          · cases h
      · cases h

theorem privmsgReMatch_sender (l s t : List Char)
    (h : privmsgReMatch l = some (s, t)) :
    (pyDollarTrim l).head? = some ':' ∧
      s = List.takeWhile (fun c => c != '!') (pyDollarTrim l).tail := by
  unfold privmsgReMatch at h
  split at h
  · cases h
  · split at h
    · cases h
    · split at h
      · cases h
      · rename_i x1 sa hsnd x2 msg hsl
        obtain ⟨hs, _⟩ := Prod.mk.injEq .. |>.mp (Option.some.inj h)
        have hinv := senderSplit_inversion (pyDollarTrim l) sa.1 sa.2 (by rw [hsnd])
        exact ⟨hinv.1, hs ▸ hinv.2⟩

theorem framer_crlf (rest : List Char) :
    framer ('\r' :: '\n' :: rest) = ([] :: (framer rest).1, (framer rest).2) := by
  simp [framer]

theorem framer_nil_snd (s : List Char) (h : (framer s).1 = []) :
    (framer s).2 = s := by
  induction s using framer.induct with
  | case1 => rfl
  | case2 c => rfl
  | case3 c1 c2 rest hcond ih =>
      obtain ⟨h1, h2⟩ := hcond
      subst h1; subst h2
      rw [framer_crlf] at h
      cases h
  | case4 c1 c2 rest hcond r heq ih =>
      have hr : r = c2 :: rest := by
        have h3 := ih (by rw [heq])
        rw [heq] at h3
        exact h3
      simp only [framer, if_neg hcond, heq]
      rw [hr]
  | case5 c1 c2 rest hcond l ls r heq ih =>
      simp only [framer, if_neg hcond, heq] at h
      cases h

theorem framer_append (s t : List Char) :
    framer (s ++ t) =
      ((framer s).1 ++ (framer ((framer s).2 ++ t)).1,
        (framer ((framer s).2 ++ t)).2) := by
  induction s using framer.induct with
  | case1 => rfl
  | case2 c => rfl
  | case3 c1 c2 rest hcond ih =>
      obtain ⟨h1, h2⟩ := hcond
      subst h1; subst h2
      simp only [List.cons_append, framer_crlf, ih]
  | case4 c1 c2 rest hcond r heq ih =>
      have hr : r = c2 :: rest := by
        have h3 := framer_nil_snd (c2 :: rest) (by rw [heq])
        rw [heq] at h3
        exact h3
      subst hr
      have hs : framer (c1 :: c2 :: rest) = ([], c1 :: c2 :: rest) := by
        simp only [framer, if_neg hcond, heq]
      rw [hs]
      simp
  | case5 c1 c2 rest hcond l ls r heq ih =>
      rw [heq] at ih
      simp only [List.cons_append] at ih
      have hs : framer (c1 :: c2 :: rest) = ((c1 :: l) :: ls, r) := by
        simp only [framer, if_neg hcond, heq]
      rw [hs]
      show framer (c1 :: c2 :: (rest ++ t)) = _
      simp only [framer, if_neg hcond, ih]
      simp

theorem framer_snd_fixpoint (s : List Char) :
    framer (framer s).2 = ([], (framer s).2) := by
  induction s using framer.induct with
  | case1 => rfl
  | case2 c => rfl
  | case3 c1 c2 rest hcond ih =>
      obtain ⟨h1, h2⟩ := hcond
      subst h1; subst h2
      rw [framer_crlf]
      exact ih
  | case4 c1 c2 rest hcond r heq ih =>
      have hr : r = c2 :: rest := by
        have h3 := framer_nil_snd (c2 :: rest) (by rw [heq])
        rw [heq] at h3
        exact h3
      subst hr
      have hs : framer (c1 :: c2 :: rest) = ([], c1 :: c2 :: rest) := by
        simp only [framer, if_neg hcond, heq]
      rw [hs]
      exact hs
  | case5 c1 c2 rest hcond l ls r heq ih =>
      have hs : framer (c1 :: c2 :: rest) = ((c1 :: l) :: ls, r) := by
        simp only [framer, if_neg hcond, heq]
      rw [hs]
      rw [heq] at ih
      exact ih

theorem hasCRLF_false_framer (s : List Char) (h : hasCRLF s = false) :
    framer s = ([], s) := by
  induction s using framer.induct with
  | case1 => rfl
  | case2 c => rfl
  | case3 c1 c2 rest hcond ih =>
      obtain ⟨h1, h2⟩ := hcond
      subst h1; subst h2
      simp [hasCRLF] at h
  | case4 c1 c2 rest hcond r heq ih =>
      have hr : r = c2 :: rest := by
        have h3 := framer_nil_snd (c2 :: rest) (by rw [heq])
        rw [heq] at h3
        exact h3
      subst hr
      simp only [framer, if_neg hcond, heq]
  | case5 c1 c2 rest hcond l ls r heq ih =>
      exfalso
      simp only [hasCRLF, Bool.or_eq_false_iff] at h
      have := ih h.2
      rw [heq] at this
      cases this

theorem feedAll_framer (cs : List (List Char)) (buf : List Char)
    (hbuf : framer buf = ([], buf)) :
    feedAll buf cs = framer (buf ++ cs.flatten) := by
  induction cs generalizing buf with
  | nil => simp [feedAll, hbuf]
  | cons c cs ih =>
      simp only [feedAll, List.flatten_cons]
      rw [ih (framer (buf ++ c)).2 (framer_snd_fixpoint (buf ++ c))]
      rw [← List.append_assoc, framer_append (buf ++ c) cs.flatten]

/-! ## Claim theorems -/

/-- C1, counterexample: the claim says a lost connection doubles the delay;
in `TwitchBot.run` an empty `recv` (connection lost) leaves
`current_reconnect_delay` unchanged — at delay 1 (min 1, max 60) it stays 1
instead of becoming `min (1*2) 60 = 2`. -/
theorem backoff_lost_connection_cex :
    (recvStep ⟨true, true, 1, 1, 60⟩ (.chunk [])).currentDelay = 1 ∧
    (recvStep ⟨true, true, 1, 1, 60⟩ (.chunk [])).currentDelay ≠
      min ((1 : Nat) * 2) 60 := by
  exact ⟨rfl, by decide⟩

/-- C1, amended: in the CLI bot, `current_reconnect_delay` resets to the
minimum on every successful handshake and doubles capped at the maximum on
every failed connect attempt; a lost connection (empty recv or socket error)
leaves it unchanged.  Starting from min=1, max=60, three consecutive failed
connects give delay 8, and a subsequent successful handshake resets it to 1. -/
theorem backoff_reset_and_double :
    (∀ b : BotState, (connectStep b true).currentDelay = b.minDelay) ∧
    (∀ b : BotState,
        (connectStep b false).currentDelay = min (b.currentDelay * 2) b.maxDelay) ∧
    (∀ b : BotState,
        (recvStep b (.chunk [])).currentDelay = b.currentDelay ∧
        (recvStep b .sockErr).currentDelay = b.currentDelay) ∧
    (connectSteps ⟨true, false, 1, 1, 60⟩ [false, false, false]).currentDelay = 8 ∧
    (connectStep (connectSteps ⟨true, false, 1, 1, 60⟩ [false, false, false])
        true).currentDelay = 1 := by
  exact ⟨fun b => rfl, fun b => rfl, fun b => ⟨rfl, rfl⟩, by decide, by decide⟩

/-- C2: the trigger matcher lowercases both sides, scans the table in
insertion order and returns the action of the first entry whose folded
phrase is a substring of the folded text (`List.find?` is exactly the
first-match scan), returning `none` when no entry matches; and
`match("HELLO there", {"hello": "a.wav"})` returns `"a.wav"`. -/
theorem trigger_first_match_case_insensitive :
    (∀ (text : List Char) (table : List (List Char × List Char)),
        matchTriggers text table =
          Option.map Prod.snd
            (table.find? fun p => containsSub (lowerStr p.1) (lowerStr text))) ∧
    matchTriggers ("HELLO there".toList) [("hello".toList, "a.wav".toList)] =
      some ("a.wav".toList) := by
  constructor
  · intro text table
    induction table with
    | nil => rfl
    | cons p rest ih =>
        obtain ⟨trig, act⟩ := p
        cases hc : containsSub (lowerStr trig) (lowerStr text) <;>
          simp [matchTriggers, List.find?, hc, ih]
  · decide

/-- C9, counterexample: the claim says a receive timeout keeps the same
connection with backoff unchanged; in `TwitchListener.run` a
`socket.timeout` is handled together with `OSError`: it sleeps, doubles the
backoff (1 becomes 2) and reconnects (the connection generation changes). -/
theorem listener_timeout_cex :
    (listenerRecvStep ⟨true, 1, 0⟩ .timeout).backoff = 2 ∧
    (listenerRecvStep ⟨true, 1, 0⟩ .timeout).connGen = 1 ∧
    (2 : Nat) ≠ 1 ∧ (1 : Nat) ≠ 0 := by
  exact ⟨by decide, rfl, by decide, by decide⟩

/-- C9, amended: in the CLI bot a receive timeout is not a failure — the
loop simply re-polls with the state (connection, backoff) unchanged; in the
listener class a receive timeout is treated like a socket error: the loop
sleeps, doubles its backoff capped at 60, and reconnects. -/
theorem timeout_bot_repolls_listener_reconnects :
    (∀ b : BotState, recvStep b .timeout = b) ∧
    (∀ s : ListenerState,
        (listenerRecvStep s .timeout).backoff = min (s.backoff * 2) 60 ∧
        (listenerRecvStep s .timeout).connGen = s.connGen + 1 ∧
        (listenerRecvStep s .timeout).running = s.running) :=
  ⟨fun _ => rfl, fun _ => ⟨rfl, rfl, rfl⟩⟩

/-- C10: a trigger table entry with the empty phrase matches every chat
message (the folded empty phrase is a substring of every folded text), so
the matcher always returns an action; when the empty-phrase entry is first
it is the one that fires, on every message. -/
theorem empty_trigger_always_fires :
    (∀ (text : List Char) (table : List (List Char × List Char)) (act : List Char),
        ([], act) ∈ table → (matchTriggers text table).isSome = true) ∧
    (∀ (text act : List Char) (rest : List (List Char × List Char)),
        matchTriggers text (([], act) :: rest) = some act) := by
  constructor
  · intro text table act hmem
    induction table with
    | nil => cases hmem
    | cons p rest ih =>
        obtain ⟨trig, a⟩ := p
        cases hc : containsSub (lowerStr trig) (lowerStr text)
        · rcases List.mem_cons.mp hmem with heq | hrest
          · cases heq
            rw [show lowerStr [] = [] from rfl, containsSub_nil] at hc
            cases hc
          · simpa [matchTriggers, hc] using ih hrest
        · simp [matchTriggers, hc]
  · intro text act rest
    simp [matchTriggers, show lowerStr [] = [] from rfl, containsSub_nil]

/-- C10 witness: a singleton table whose only phrase is empty yields an
action on the concrete message `"abc"`. -/
theorem empty_trigger_always_fires_witness :
    (matchTriggers ("abc".toList) [([], "x.wav".toList)]).isSome = true :=
  empty_trigger_always_fires.1 ("abc".toList) [([], "x.wav".toList)]
    ("x.wav".toList) (by decide)

/-- C3, counterexample: on a line of the claimed form whose message body
itself contains `" PRIVMSG #c :"`, the greedy `.*` of `PRIVMSG_RE` commits
to the LAST such occurrence, so the text group is `"world"` — not
everything after the first `:` that follows the command and channel token
(which would be `"hello PRIVMSG #c :world"`). -/
theorem privmsg_text_last_occurrence_cex :
    privmsgReMatch (":alice!x PRIVMSG #bob :hello PRIVMSG #c :world".toList) =
      some ("alice".toList, "world".toList) ∧
    ("world".toList : List Char) ≠ "hello PRIVMSG #c :world".toList := by
  exact ⟨by decide, by decide⟩

/-- C3, amended: whenever `PRIVMSG_RE` matches, the sender group is exactly
the characters between the leading `:` and the first `!`; the text group is
everything after the `:` of the LAST occurrence of
`" PRIVMSG #<token> :"` in the line (greedy `.*`), which coincides with the
first such occurrence when the body contains no further copy of that
pattern — in particular the canonical line classifies as
`Chat{sender: "alice", text: "hello world"}`. -/
theorem privmsg_sender_and_example :
    (∀ l s t : List Char, privmsgReMatch l = some (s, t) →
        (pyDollarTrim l).head? = some ':' ∧
        s = List.takeWhile (fun c => c != '!') (pyDollarTrim l).tail) ∧
    classifyLine (":alice!alice@x.tmi.twitch.tv PRIVMSG #bob :hello world".toList) =
      Msg.chat ("alice".toList) ("hello world".toList) := by
  exact ⟨privmsgReMatch_sender, by decide⟩

/-- C3 witness: the sender inversion instantiated at a concrete line. -/
theorem privmsg_sender_and_example_witness :
    (pyDollarTrim (":alice!a PRIVMSG #b :hi".toList)).head? = some ':' ∧
    "alice".toList =
      List.takeWhile (fun c => c != '!')
        (pyDollarTrim (":alice!a PRIVMSG #b :hi".toList)).tail :=
  privmsg_sender_and_example.1 (":alice!a PRIVMSG #b :hi".toList)
    ("alice".toList) ("hi".toList) (by decide)

/-- C4, counterexample: the CLI bot replies with
`message.replace("PING", "PONG")`, which echoes the line's trailing
parameters — the reply to `"PING :abc"` differs from the reply to
`"PING :xyz"`, so the reply sent is not one fixed line. -/
theorem ping_reply_not_fixed_cex :
    pingToPong ("PING :abc".toList) = "PONG :abc".toList ∧
    pingToPong ("PING :xyz".toList) = "PONG :xyz".toList ∧
    "PONG :abc".toList ≠ "PONG :xyz".toList := by
  exact ⟨by decide, by decide, by decide⟩

/-- C4, amended: every line beginning with the literal `PING` is classified
as a keep-alive regardless of trailing parameters; the listener replies
with the fixed line `"PONG :tmi.twitch.tv"`, while the CLI bot echoes the
received line with `PING` replaced by `PONG`. -/
theorem ping_classified_and_replies :
    (∀ rest : List Char, classifyLine ("PING".toList ++ rest) = Msg.ping) ∧
    listenerPongReply = "PONG :tmi.twitch.tv".toList ∧
    (∀ rest : List Char,
        pingToPong ("PING".toList ++ rest) = "PONG".toList ++ pingToPong rest) := by
  refine ⟨?_, rfl, fun _ => rfl⟩
  intro rest
  have hp : List.isPrefixOf ("PING".toList) ("PING".toList ++ rest) = true := by
    simp [List.isPrefixOf]
  unfold classifyLine
  rw [if_pos hp]

/-- C5, counterexample: chunking invariance fails at the byte level,
because each chunk is decoded on its own with `errors="ignore"` before
being buffered: the two-byte sequence C3 A9 (`é`) split across chunks is
dropped byte-by-byte, yielding the empty line, whereas the combined chunk
yields the line `"é"`. -/
theorem byte_chunking_invariance_cex :
    byteFeedAll [] [[0xC3], [0xA9, 13, 10]] ≠
      byteFeedAll [] [[0xC3, 0xA9, 13, 10]] ∧
    byteFeedAll [] [[0xC3], [0xA9, 13, 10]] = ([[]], []) ∧
    byteFeedAll [] [[0xC3, 0xA9, 13, 10]] = ([[Char.ofNat 0xE9]], []) := by
  exact ⟨by decide, by decide, by decide⟩

/-- C5, amended: chunking invariance holds at the text level — feeding
decoded chunks one by one yields exactly the lines (and leftover buffer) of
feeding the single concatenated text — and partial trailing data without a
terminator is retained in the buffer unchanged, to be prepended to the next
feed; at the byte level the invariance is broken only by the per-chunk
lossy decode (counterexample above). -/
theorem text_chunking_invariance :
    (∀ cs : List (List Char), feedAll [] cs = framer cs.flatten) ∧
    (∀ s : List Char, hasCRLF s = false → framer s = ([], s)) := by
  constructor
  · intro cs
    have h := feedAll_framer cs [] rfl
    simpa using h
  · exact hasCRLF_false_framer

/-- C5 witness: invariance at a concrete chunk list and retention of a
concrete terminator-free buffer. -/
theorem text_chunking_invariance_witness :
    feedAll [] ["ab\r\ncd".toList] = framer (List.flatten ["ab\r\ncd".toList]) ∧
    framer ("partial".toList) = ([], "partial".toList) :=
  ⟨text_chunking_invariance.1 ["ab\r\ncd".toList],
    text_chunking_invariance.2 ("partial".toList) (by decide)⟩

/-- C6, counterexample: both variants decode with `errors="ignore"`, which
DROPS malformed byte sequences; the spec's `errors="replace"` behavior
would substitute U+FFFD.  On the bytes `48 FF 69` the code yields `"Hi"`,
not `"H\uFFFDi"`. -/
theorem decode_ignore_not_replace_cex :
    utf8DecodeIgnore [72, 255, 105] = "Hi".toList ∧
    utf8DecodeReplace [72, 255, 105] = ['H', Char.ofNat 0xFFFD, 'i'] ∧
    utf8DecodeIgnore [72, 255, 105] ≠ utf8DecodeReplace [72, 255, 105] := by
  exact ⟨by decide, by decide, by decide⟩

/-- C6, amended: decoding never fails (it is a total function), valid ASCII
bytes decode to themselves, and malformed byte sequences are DROPPED
(ignored) from the decoded text rather than replaced or raising an error:
a stray continuation byte, an overlong lead (C0/C1) and an out-of-range
lead (F5..FF) each contribute nothing. -/
theorem decode_drops_malformed :
    (∀ (b : Nat) (bs : List Nat), b < 0x80 →
        utf8DecodeIgnore (b :: bs) = Char.ofNat b :: utf8DecodeIgnore bs) ∧
    (∀ (b : Nat) (bs : List Nat), 0x80 ≤ b → b < 0xC2 →
        utf8DecodeIgnore (b :: bs) = utf8DecodeIgnore bs) ∧
    (∀ (b : Nat) (bs : List Nat), 0xF5 ≤ b →
        utf8DecodeIgnore (b :: bs) = utf8DecodeIgnore bs) ∧
    utf8DecodeIgnore [72, 255, 105] = "Hi".toList := by
  refine ⟨?_, ?_, ?_, by decide⟩
  · intro b bs hb
    rcases bs with _ | ⟨b2, _ | ⟨b3, _ | ⟨b4, rest⟩⟩⟩ <;>
      simp [utf8DecodeIgnore, utf8DecodeWith, hb]
  · intro b bs hb1 hb2
    have h1 : ¬ b < 0x80 := by omega
    rcases bs with _ | ⟨b2, _ | ⟨b3, _ | ⟨b4, rest⟩⟩⟩ <;>
      simp [utf8DecodeIgnore, utf8DecodeWith, h1, hb2]
  · intro b bs hb
    have h1 : ¬ b < 0x80 := by omega
    have h2 : ¬ b < 0xC2 := by omega
    have h3 : ¬ b < 0xE0 := by omega
    have h4 : ¬ b < 0xF0 := by omega
    have h5 : ¬ b < 0xF5 := by omega
    rcases bs with _ | ⟨b2, _ | ⟨b3, _ | ⟨b4, rest⟩⟩⟩ <;>
      simp [utf8DecodeIgnore, utf8DecodeWith, h1, h2, h3, h4, h5]

/-- C6 witness: concrete instances of the three drop rules. -/
theorem decode_drops_malformed_witness :
    utf8DecodeIgnore [72, 255] = Char.ofNat 72 :: utf8DecodeIgnore [255] ∧
    utf8DecodeIgnore [128, 72] = utf8DecodeIgnore [72] ∧
    utf8DecodeIgnore [245, 72] = utf8DecodeIgnore [72] :=
  ⟨decode_drops_malformed.1 72 [255] (by decide),
    decode_drops_malformed.2.1 128 [72] (by decide) (by decide),
    decode_drops_malformed.2.2.1 245 [72] (by decide)⟩

/-- C7: no error originating in message processing changes the run-loop
guard: every connect attempt, every receive outcome (including socket
errors and faults escaping message handling) leaves `running` unchanged in
both variants; only `stop()` clears it, so the loop terminates only after
an explicit `stop()`.  Malformed chat-like lines (missing the `!` or the
`" :"` delimiter) do not raise: they classify as `other` and are skipped. -/
theorem run_loop_survives_errors :
    (∀ (b : BotState) (ok : Bool), (connectStep b ok).running = b.running) ∧
    (∀ (b : BotState) (r : RecvRes), (recvStep b r).running = b.running) ∧
    (∀ (s : ListenerState) (r : RecvRes),
        (listenerRecvStep s r).running = s.running) ∧
    (∀ b : BotState, (stopStep b).running = false) ∧
    classifyLine (":alice PRIVMSG #bob hello".toList) = Msg.other ∧
    classifyLine (":a!b PRIVMSG #c x".toList) = Msg.other := by
  refine ⟨?_, ?_, ?_, fun _ => rfl, by decide, by decide⟩
  · intro b ok
    cases ok <;> rfl
  · intro b r
    cases r with
    | chunk s =>
        simp only [recvStep]
        split <;> rfl
    | timeout => rfl
    | sockErr => rfl
    | procFault => rfl
  · intro s r
    cases r with
    | chunk cs =>
        simp only [listenerRecvStep]
        split <;> rfl
    | timeout => rfl
    | sockErr => rfl
    | procFault => rfl

/-- C8, counterexample: with the stop flag already cleared during an
in-progress 8-second backoff sleep, no single step of the connect loop
exits (`result` stays `none`): the only progress is `sleepDone`, which
records the COMPLETED sleep in the log, and only the following loop-top
check observes the flag and exits — so the run loop does not exit without
completing the sleep. -/
theorem stop_during_sleep_cex :
    (connLoopStep ⟨false, 8, some 8, [], none⟩ (.check true)).result = none ∧
    (connLoopStep ⟨false, 8, some 8, [], none⟩ (.check false)).result = none ∧
    (connLoopStep ⟨false, 8, some 8, [], none⟩ .setStop).result = none ∧
    (connLoopStep ⟨false, 8, some 8, [], none⟩ .sleepDone).result = none ∧
    (connLoopStep ⟨false, 8, some 8, [], none⟩ .sleepDone).slept = [8] ∧
    (connLoopStep (connLoopStep ⟨false, 8, some 8, [], none⟩ .sleepDone)
        (.check false)).result = some false ∧
    (connLoopStep (connLoopStep ⟨false, 8, some 8, [], none⟩ .sleepDone)
        (.check false)).slept = [8] ∧
    ([8] : List Nat) ≠ [] := by
  exact ⟨rfl, rfl, rfl, rfl, rfl, rfl, rfl, by decide⟩

/-- C8, amended: `stop()` only sets the cancellation flag (and `join`s with
a bounded 5-second timeout, returning regardless of the loop's progress);
it does not interrupt an in-progress backoff sleep.  While sleeping, no
step decides an exit; the sleep always completes in full and doubles the
backoff; only the next loop-top check observes the cleared flag and exits.
So the run loop exits only AFTER completing the sleep, and `stop()` may
return while the loop is still sleeping. -/
theorem sleep_completes_before_exit :
    (∀ (s : ConnSt) (d : Nat) (e : ConnEv), s.sleeping = some d →
        (connLoopStep s e).result = s.result) ∧
    (∀ (s : ConnSt) (d : Nat), s.sleeping = some d →
        (connLoopStep s .sleepDone).slept = s.slept ++ [d] ∧
        (connLoopStep s .sleepDone).sleeping = none) ∧
    (∀ s : ConnSt, s.sleeping = none → s.result = none → s.running = false →
        ∀ ok : Bool, (connLoopStep s (.check ok)).result = some false) ∧
    (∀ s : ConnSt, (connLoopStep s .setStop).running = false ∧
        (connLoopStep s .setStop).sleeping = s.sleeping ∧
        (connLoopStep s .setStop).slept = s.slept ∧
        (connLoopStep s .setStop).result = s.result) := by
  refine ⟨?_, ?_, ?_, fun s => ⟨rfl, rfl, rfl, rfl⟩⟩
  · intro s d e hd
    cases e with
    | setStop => rfl
    | sleepDone => simp [connLoopStep, hd]
    | check ok =>
        cases hres : s.result <;> simp [connLoopStep, hd, hres]
  · intro s d hd
    constructor <;> simp [connLoopStep, hd]
  · intro s h1 h2 h3 ok
    simp [connLoopStep, h1, h2, h3]

/-- C8 witness: the amended facts at concrete states. -/
theorem sleep_completes_before_exit_witness :
    (connLoopStep ⟨true, 5, some 5, [], none⟩ .setStop).result = none ∧
    (connLoopStep ⟨true, 5, some 5, [], none⟩ .sleepDone).slept = [] ++ [5] ∧
    (connLoopStep ⟨false, 5, none, [5], none⟩ (.check true)).result = some false :=
  ⟨sleep_completes_before_exit.1 ⟨true, 5, some 5, [], none⟩ 5 .setStop rfl,
    (sleep_completes_before_exit.2.1 ⟨true, 5, some 5, [], none⟩ 5 rfl).1,
    sleep_completes_before_exit.2.2.1 ⟨false, 5, none, [5], none⟩ rfl rfl rfl true⟩

end TwitchAlert
